import Mathlib

/-!
Shallow embedding of `src/project.py` (`PriceMachine`): a small in-memory
tabular loader that scans a directory listing for files whose name contains
the marker "price", extracts product name / price / weight columns from each
CSV row by matching headers against fixed synonym lists, computes a derived
price-per-kilogram value, renders HTML tables, and supports case-insensitive
substring search over loaded records.

Modelling choices:
* Python numbers (`float`) are embedded as `ℚ`; `float(s)` is modelled by
  `parseFloat` covering optionally signed decimal literals (the forms the
  program's data uses); a string it cannot parse yields `none`, modelling
  the `ValueError` that `float` raises.
* A CSV row as produced by `csv.DictReader` is an association list from
  header name to cell value (`Row`); a directory listing is a list of
  `(filename, contents)` pairs where `none` contents model a file that
  cannot be opened or read.
* Exceptions are explicit: per-row processing returns `Except` (the
  `ValueError` / `ZeroDivisionError` cases), and `load_prices` returns a
  `LoadResult` recording the new `self.data`, the printed error log, and
  the exception propagated to the caller, if any.
* Python's `str.lower` is modelled for ASCII and Cyrillic letters, the
  alphabets the program's data uses.
-/

namespace PriceMachine

/-- A CSV row as a `csv.DictReader` dict: header name to cell value. -/
abbrev Row := List (String × String)

/-- One entry of a directory listing: filename and the file's parsed CSV
rows, or `none` when opening/reading the file raises. -/
abbrev DirEntry := String × Option (List Row)

/-- Accepted header names for the product-name column (`PRODUCT_KEYS`). -/
def PRODUCT_KEYS : List String := ["название", "продукт", "товар", "наименование"]

/-- Accepted header names for the price column (`PRICE_KEYS`). -/
def PRICE_KEYS : List String := ["цена", "розница"]

/-- Accepted header names for the weight column (`WEIGHT_KEYS`). -/
def WEIGHT_KEYS : List String := ["фасовка", "масса", "вес"]

/-- Python `str.lower` on one character, for ASCII and Cyrillic (А..Я and Ё). -/
def lowerChar (c : Char) : Char :=
  if 65 ≤ c.toNat ∧ c.toNat ≤ 90 then Char.ofNat (c.toNat + 32)
  else if 0x410 ≤ c.toNat ∧ c.toNat ≤ 0x42F then Char.ofNat (c.toNat + 0x20)
  else if c.toNat = 0x401 then Char.ofNat 0x451
  else c

/-- Python `str.lower` on a string. -/
def lowerStr (s : String) : String := ⟨s.data.map lowerChar⟩

/-- Does `hay` start with `needle`? Helper for substring containment. -/
def startsWithL : List Char → List Char → Bool
  | [], _ => true
  | _ :: _, [] => false
  | a :: as, b :: bs => a = b && startsWithL as bs

/-- Python's `needle in hay` on character lists: substring containment. -/
def containsL (needle : List Char) : List Char → Bool
  | [] => needle.isEmpty
  | c :: rest => startsWithL needle (c :: rest) || containsL needle rest

/-- Python's `needle in hay` on strings. -/
def containsStr (needle hay : String) : Bool := containsL needle.toList hay.toList

/-- The file filter of `load_prices`: `'price' in filename.lower()`. -/
def hasMarker (filename : String) : Bool := containsStr "price" (lowerStr filename)

/-- Embeds `PriceMachine._get_value`: the value of the first key of `keys`, in list
order, that is present in the row; `None` when no key is present. -/
def getValue (item : Row) : List String → Option String
  | [] => none
  | k :: ks =>
    match item.lookup k with
    | some v => some v
    | none => getValue item ks

/-- Numeric value of a digit list (most significant first). -/
def digitsVal (cs : List Char) : ℕ :=
  cs.foldl (fun a c => a * 10 + (c.toNat - 48)) 0

/-- Parse an unsigned decimal literal (`"12"`, `"12.5"`, `".5"`, `"12."`). -/
def parseUnsigned (cs : List Char) : Option ℚ :=
  match cs.splitOn '.' with
  | [i] =>
    if i ≠ [] ∧ i.all Char.isDigit then some (digitsVal i) else none
  | [i, f] =>
    if (i ≠ [] ∨ f ≠ []) ∧ i.all Char.isDigit ∧ f.all Char.isDigit then
      some ((digitsVal i : ℚ) + (digitsVal f : ℚ) / (10 : ℚ) ^ f.length)
    else none
  | _ => none

/-- Python `float(s)`, modelled on optionally signed decimal literals with
surrounding spaces; `none` models the `ValueError` on any other string. -/
def parseFloat (s : String) : Option ℚ :=
  match ((s.toList.dropWhile (· = ' ')).reverse.dropWhile (· = ' ')).reverse with
  | '+' :: rest => parseUnsigned rest
  | '-' :: rest => (parseUnsigned rest).map Neg.neg
  | cs => parseUnsigned cs

/-- One record appended by `load_prices`: the five-field dict
`{"наименование", "цена", "вес", "файл", "цена за кг"}`. -/
structure Item where
  /-- Field "наименование". -/
  name : String
  /-- Field "цена". -/
  price : ℚ
  /-- Field "вес". -/
  weight : ℚ
  /-- Field "файл". -/
  srcFile : String
  /-- Field "цена за кг". -/
  pricePerKg : ℚ
deriving Repr, DecidableEq

/-- The sort key comparison used throughout: Python tuple `≤` on
`(x["наименование"], x["цена за кг"])`. -/
def keyLe (a b : Item) : Prop :=
  a.name < b.name ∨ (a.name = b.name ∧ a.pricePerKg ≤ b.pricePerKg)

/-- Boolean form of `keyLe`, the comparator handed to the sort. -/
def keyLeB (a b : Item) : Bool :=
  if a.name = b.name then decide (a.pricePerKg ≤ b.pricePerKg)
  else decide (a.name < b.name)

/-- Python `sorted(·, key=lambda x: (x["наименование"], x["цена за кг"]))`. -/
def sortItems (l : List Item) : List Item := l.mergeSort keyLeB

/-- The body of the row loop of `load_prices` on one row: `none` when the
row is skipped by the truthiness check, `some` record when one is appended,
`Except.error` when `float` conversion or the division raises. -/
def processRow (filename : String) (row : Row) : Except String (Option Item) :=
  match getValue row PRODUCT_KEYS, getValue row PRICE_KEYS, getValue row WEIGHT_KEYS with
  | some pn, some pr, some wt =>
    if pn ≠ "" ∧ pr ≠ "" ∧ wt ≠ "" then
      match parseFloat pr, parseFloat wt with
      | some p, some w =>
        if w = 0 then Except.error "ZeroDivisionError"
        else Except.ok (some { name := pn, price := p, weight := w,
                               srcFile := filename, pricePerKg := p / w })
      | _, _ => Except.error "ValueError"
    else Except.ok none
  | _, _, _ => Except.ok none

/-- The row loop of `load_prices` over one file's rows: the records appended
and, when a row raises, the propagated error message; rows after the first
raising row are not reached. -/
def processRows (filename : String) : List Row → List Item × Option String
  | [] => ([], none)
  | r :: rs =>
    match processRow filename r with
    | Except.error e => ([], some e)
    | Except.ok none => processRows filename rs
    | Except.ok (some it) =>
      ((processRows filename rs).1.cons it, (processRows filename rs).2)

/-- Processing of one matching file inside the `try`: a file that cannot be
opened contributes nothing and yields the caught error. -/
def processFile (filename : String) (contents : Option (List Row)) :
    List Item × Option String :=
  match contents with
  | none => ([], some "OSError")
  | some rows => processRows filename rows

/-- Outcome of a `load_prices` call on the mutable state `self.data`. -/
structure LoadResult where
  /-- State of `self.data` after the call (also the method's return value). -/
  data : List Item
  /-- The printed error messages, as (filename, error) pairs. -/
  log : List (String × String)
  /-- The exception propagated to the caller, if any. -/
  raised : Option String
deriving Repr, DecidableEq

/-- Embeds `PriceMachine.load_prices`: `listing` is the directory listing at
`file_path` in `os.listdir` order, or `none` when the path does not exist. -/
def load_prices (listing : Option (List DirEntry)) (data : List Item) : LoadResult :=
  match listing with
  | none => { data := data, log := [], raised := some "FileNotFoundError" }
  | some files =>
    let matching := files.filter fun f => hasMarker f.1
    { data := data ++ matching.flatMap fun f => (processFile f.1 f.2).1
      log := matching.filterMap fun f => ((processFile f.1 f.2).2).map fun e => (f.1, e)
      raised := none }

/-- Embeds `PriceMachine.find_text`: records whose name contains the query
case-insensitively, sorted by `(name, price per kg)`. -/
def find_text (data : List Item) (text : String) : List Item :=
  sortItems (data.filter fun it =>
    containsStr (lowerStr text) (lowerStr it.name))

/-- Stand-in for Python `str(float)` used by the `{item[...]}` interpolations:
rendering of the embedded rational. -/
def pyFloatRepr (q : ℚ) : String :=
  if q.den = 1 then toString q.num ++ ".0" else toString q

/-- Python `{:.2f}` formatting of the embedded rational: rounded to two
decimal places. -/
def fixed2 (q : ℚ) : String :=
  let n : ℤ := round (q * 100)
  let m : ℕ := n.natAbs
  (if n < 0 then "-" else "") ++ toString (m / 100) ++ "." ++
    (if m % 100 < 10 then "0" else "") ++ toString (m % 100)

/-- The leading HTML of `export_to_html` (titled "Позиции продуктов"). -/
def htmlHeader : String :=
  "\n<!DOCTYPE html>\n<html>\n<head>\n<title>Позиции продуктов</title>\n" ++
  "</head>\n<body>\n<table border=\x270\x27>\n<tr>\n<th>Номер</th>\n<th>Название</th>\n" ++
  "<th>Цена</th>\n<th>Фасовка</th>\n<th>Файл</th>\n<th>Цена за кг.</th>\n</tr>\n"

/-- The closing HTML shared by both exports. -/
def htmlFooter : String := "\n</table>\n</body>\n</html>\n"

/-- One `<tr>` block of the exported tables: the row number followed by the
five record fields, price per kg formatted with two decimals. -/
def rowHtml (p : ℕ × Item) : String :=
  "\n<tr>\n<td>" ++ toString p.1 ++ "</td>\n<td>" ++ p.2.name ++ "</td>\n<td>" ++
  pyFloatRepr p.2.price ++ "</td>\n<td>" ++ pyFloatRepr p.2.weight ++ "</td>\n<td>" ++
  p.2.srcFile ++ "</td>\n<td>" ++ fixed2 p.2.pricePerKg ++ "</td>\n</tr>\n"

/-- The numbered rows of an exported table: the records sorted by
`(name, price per kg)` and enumerated from 1. -/
def exportRows (data : List Item) : List (ℕ × Item) :=
  List.enumFrom 1 (sortItems data)

/-- Embeds `PriceMachine.export_to_html`: returns the writes performed (filename,
full contents) and the method's return value; the document is accumulated by
`result +=` over the sorted, enumerated records. -/
def export_to_html (data : List Item) (fname : String) :
    List (String × String) × String :=
  let result := (exportRows data).foldl (fun acc p => acc ++ rowHtml p) htmlHeader
  let result := result ++ htmlFooter
  ([(fname, result)], result)

/-- The leading HTML of `export_search_results_to_html` (titled
"Результаты поиска"). -/
def searchHtmlHeader : String :=
  "\n<!DOCTYPE html>\n<html>\n<head>\n<title>Результаты поиска</title>\n" ++
  "</head>\n<body>\n<table border=\x270\x27>\n<tr>\n<th>Номер</th>\n<th>Название</th>\n" ++
  "<th>Цена</th>\n<th>Фасовка</th>\n<th>Файл</th>\n<th>Цена за кг.</th>\n</tr>\n"

/-- Embeds `PriceMachine.export_search_results_to_html`: returns the writes
performed and the method's return value. An empty results list returns `""`
before touching the file; otherwise the successive `html_file.write` calls
leave the file holding header, sorted numbered rows, and footer, and the
method still returns `""`. -/
def export_search_results_to_html (results : List Item) (fname : String) :
    List (String × String) × String :=
  if results.isEmpty then ([], "")
  else
    ([(fname,
       (exportRows results).foldl (fun acc p => acc ++ rowHtml p) searchHtmlHeader
         ++ htmlFooter)], "")

/-- The concatenation of the rendered `<tr>` blocks of a numbered row list. -/
def concatRows (l : List (ℕ × Item)) : String :=
  l.foldl (fun acc p => acc ++ rowHtml p) ""

/-- Example row: a well-formed CSV row. -/
def sampleRow : Row := [("товар", "Сыр"), ("цена", "100"), ("вес", "2")]

/-- Example record: what loading `sampleRow` from "price.csv" appends. -/
def sampleItem : Item :=
  { name := "Сыр", price := 100, weight := 2, srcFile := "price.csv", pricePerKg := 50 }

/-- Example row whose price cell `"x"` does not parse as a number. -/
def badRow0 : Row := [("товар", "Хлеб"), ("цена", "x"), ("вес", "1")]

/-! ### Helper lemmas -/

theorem keyLeB_iff (a b : Item) : keyLeB a b = true ↔ keyLe a b := by
  unfold keyLeB keyLe
  by_cases h : a.name = b.name
  · simp [h, lt_irrefl]
  · simp [h]

theorem keyLe_trans (a b c : Item) (hab : keyLe a b) (hbc : keyLe b c) : keyLe a c := by
  unfold keyLe at *
  rcases hab with h1 | ⟨h1, h1q⟩ <;> rcases hbc with h2 | ⟨h2, h2q⟩
  · exact Or.inl (lt_trans h1 h2)
  · exact Or.inl (h2 ▸ h1)
  · exact Or.inl (h1 ▸ h2)
  · exact Or.inr ⟨h1.trans h2, le_trans h1q h2q⟩

theorem keyLeB_trans (a b c : Item) (hab : keyLeB a b = true) (hbc : keyLeB b c = true) :
    keyLeB a c = true :=
  (keyLeB_iff a c).mpr (keyLe_trans a b c ((keyLeB_iff a b).mp hab) ((keyLeB_iff b c).mp hbc))

theorem keyLeB_total (a b : Item) : (keyLeB a b || keyLeB b a) = true := by
  rcases lt_trichotomy a.name b.name with h | h | h
  · simp [(keyLeB_iff a b).mpr (Or.inl h)]
  · rcases le_total a.pricePerKg b.pricePerKg with hq | hq
    · simp [(keyLeB_iff a b).mpr (Or.inr ⟨h, hq⟩)]
    · simp [(keyLeB_iff b a).mpr (Or.inr ⟨h.symm, hq⟩)]
  · simp [(keyLeB_iff b a).mpr (Or.inl h)]

theorem sortItems_perm (l : List Item) : (sortItems l).Perm l :=
  List.mergeSort_perm l keyLeB

theorem sortItems_sorted (l : List Item) : List.Sorted keyLe (sortItems l) :=
  (List.sorted_mergeSort (fun a b c => keyLeB_trans a b c) (fun a b => keyLeB_total a b) l).imp
    fun h => (keyLeB_iff _ _).mp h

theorem foldl_rowHtml (l : List (ℕ × Item)) (init : String) :
    l.foldl (fun acc p => acc ++ rowHtml p) init = init ++ concatRows l := by
  induction l generalizing init with
  | nil => simp [concatRows]
  | cons p ps ih =>
    show ps.foldl _ (init ++ rowHtml p) = _
    rw [ih (init ++ rowHtml p)]
    unfold concatRows
    show _ = init ++ ps.foldl _ ("" ++ rowHtml p)
    rw [ih ("" ++ rowHtml p)]
    simp [String.append_assoc, concatRows]

/-- Full characterization of when the row loop appends a record: all three
columns found (first synonym in list order), all three values non-empty,
price and weight parse, weight nonzero; the record is exactly the five-field
dict built from them. -/
theorem processRow_ok_iff (fname : String) (row : Row) (it : Item) :
    processRow fname row = Except.ok (some it) ↔
      ∃ pn pr wt p w,
        getValue row PRODUCT_KEYS = some pn ∧ getValue row PRICE_KEYS = some pr ∧
        getValue row WEIGHT_KEYS = some wt ∧ pn ≠ "" ∧ pr ≠ "" ∧ wt ≠ "" ∧
        parseFloat pr = some p ∧ parseFloat wt = some w ∧ w ≠ 0 ∧
        it = { name := pn, price := p, weight := w, srcFile := fname,
               pricePerKg := p / w } := by
  constructor
  · intro h
    unfold processRow at h
    split at h
    · rename_i pn pr wt hpn hpr hwt
      split at h
      · rename_i hne
        split at h
        · rename_i p w hp hw
          split at h
          · exact absurd h (by simp)
          · rename_i hw0
            refine ⟨pn, pr, wt, p, w, hpn, hpr, hwt, hne.1, hne.2.1, hne.2.2, hp, hw, hw0, ?_⟩
            injection h with h
            injection h with h
            exact h.symm
        · exact absurd h (by simp)
      · exact absurd h (by simp)
    · exact absurd h (by simp)
  · rintro ⟨pn, pr, wt, p, w, hpn, hpr, hwt, hpn0, hpr0, hwt0, hp, hw, hw0, hit⟩
    subst hit
    unfold processRow
    rw [hpn, hpr, hwt]
    simp [hpn0, hpr0, hwt0, hp, hw, hw0]

theorem mem_processRows (fname : String) (rows : List Row) (it : Item)
    (h : it ∈ (processRows fname rows).1) :
    ∃ row ∈ rows, processRow fname row = Except.ok (some it) := by
  induction rows with
  | nil => simp [processRows] at h
  | cons r rs ih =>
    unfold processRows at h
    split at h
    · simp at h
    · obtain ⟨row, hrow, hok⟩ := ih h
      exact ⟨row, List.mem_cons_of_mem r hrow, hok⟩
    · rename_i x hx
      rcases List.mem_cons.mp h with h | h
      · exact ⟨r, List.mem_cons_self r rs, h ▸ hx⟩
      · obtain ⟨row, hrow, hok⟩ := ih h
        exact ⟨row, List.mem_cons_of_mem r hrow, hok⟩

theorem mem_processFile_fields (fname : String) (c : Option (List Row)) (it : Item)
    (h : it ∈ (processFile fname c).1) :
    it.srcFile = fname ∧ it.pricePerKg = it.price / it.weight := by
  cases c with
  | none => simp [processFile] at h
  | some rows =>
    obtain ⟨row, _, hok⟩ := mem_processRows fname rows it h
    obtain ⟨pn, pr, wt, p, w, _, _, _, _, _, _, _, _, _, hit⟩ :=
      (processRow_ok_iff fname row it).mp hok
    subst hit
    exact ⟨rfl, rfl⟩

theorem processRows_append_error (fname : String) (pre post : List Row) (badRow : Row)
    (e : String) (hpre : (processRows fname pre).2 = none)
    (hbad : processRow fname badRow = Except.error e) :
    processRows fname (pre ++ badRow :: post) = ((processRows fname pre).1, some e) := by
  induction pre with
  | nil => simp [processRows, hbad]
  | cons r rs ih =>
    rw [List.cons_append]
    cases hr : processRow fname r with
    | error e2 => simp [processRows, hr] at hpre
    | ok o =>
      cases o with
      | none =>
        simp only [processRows, hr] at hpre ⊢
        exact ih hpre
      | some x =>
        simp only [processRows, hr] at hpre ⊢
        rw [ih hpre]

/-! ### Claim theorems

The arithmetic of `ℚ` is evaluated inside `decide` witnesses, so the
arithmetic operations are made transparent for this section. -/

section ClaimTheorems

attribute [local semireducible] Rat.mul Rat.inv Rat.add Rat.sub

/-- C1: every record that `load_prices` appends to `self.data` has its
"цена за кг" field equal to its "цена" field divided by its "вес" field,
those fields being the numeric parses of the source row's cells. -/
theorem appended_price_per_kg (listing : Option (List DirEntry)) (data : List Item)
    (it : Item) (h : it ∈ List.drop data.length (load_prices listing data).data) :
    it.pricePerKg = it.price / it.weight := by
  cases listing with
  | none =>
    simp only [load_prices] at h
    rw [List.drop_length] at h
    simp at h
  | some files =>
    simp only [load_prices] at h
    rw [List.drop_left, List.mem_flatMap] at h
    obtain ⟨f, _, hit⟩ := h
    exact (mem_processFile_fields f.1 f.2 it hit).2

/-- C1 witness: loading one well-formed row appends a record whose price per
kilogram is its price divided by its weight. -/
theorem appended_price_per_kg_witness :
    sampleItem ∈ List.drop (List.length ([] : List Item))
        (load_prices (some [("price.csv", some [sampleRow])]) []).data ∧
    sampleItem.pricePerKg = sampleItem.price / sampleItem.weight :=
  ⟨by decide, appended_price_per_kg (some [("price.csv", some [sampleRow])]) [] sampleItem
    (by decide)⟩

/-- C2 counterexample: a matching file whose second row has an unparseable
price cell raises mid-file, so the error is logged, yet the file has already
contributed its first record to `self.data` — the claim's "the bad file
contributes no records" is false here. -/
theorem bad_file_contributes_counterexample :
    (load_prices (some [("price.csv", some [sampleRow, badRow0])]) []).log =
        [("price.csv", "ValueError")] ∧
    (load_prices (some [("price.csv", some [sampleRow, badRow0])]) []).data =
        [sampleItem] := by
  decide

/-- C2 amended: when a row of a matching file raises while being read or
parsed, `load_prices` still returns normally, logs the error for that file,
keeps the records appended from the rows before the raising row, skips the
rest of that file, and loads the remaining matching files as usual. -/
theorem load_prices_error_mid_file
    (files₁ files₂ : List DirEntry) (fname : String) (pre post : List Row)
    (badRow : Row) (data : List Item) (e : String)
    (hmark : hasMarker fname = true)
    (hpre : (processRows fname pre).2 = none)
    (hbad : processRow fname badRow = Except.error e) :
    (load_prices (some (files₁ ++ (fname, some (pre ++ badRow :: post)) :: files₂)) data).raised
        = none ∧
    (load_prices (some (files₁ ++ (fname, some (pre ++ badRow :: post)) :: files₂)) data).data
        = data ++ (load_prices (some files₁) []).data ++ (processRows fname pre).1
            ++ (load_prices (some files₂) []).data ∧
    (fname, e) ∈
      (load_prices (some (files₁ ++ (fname, some (pre ++ badRow :: post)) :: files₂)) data).log := by
  have hfile : processFile fname (some (pre ++ badRow :: post)) =
      ((processRows fname pre).1, some e) :=
    processRows_append_error fname pre post badRow e hpre hbad
  refine ⟨rfl, ?_, ?_⟩
  · simp [load_prices, List.filter_append, List.filter_cons, hmark, hfile,
      List.append_assoc]
  · simp only [load_prices]
    rw [List.mem_filterMap]
    refine ⟨(fname, some (pre ++ badRow :: post)), ?_, ?_⟩
    · rw [List.mem_filter]
      exact ⟨List.mem_append_right _ (List.mem_cons_self _ _), hmark⟩
    · show Option.map _ (processFile fname (some (pre ++ badRow :: post))).2 = _
      rw [hfile]
      rfl

/-- C2 witness: concrete instance of the amended claim — a file whose second
row fails keeps its first record, the error is logged, and the call returns
normally. -/
theorem load_prices_error_mid_file_witness :
    hasMarker "price.csv" = true ∧
    (processRows "price.csv" [sampleRow]).2 = none ∧
    (processRow "price.csv" badRow0 = Except.error "ValueError") ∧
    ((load_prices (some ([] ++ ("price.csv", some ([sampleRow] ++ badRow0 :: [])) :: []))
        []).raised = none ∧
      (load_prices (some ([] ++ ("price.csv", some ([sampleRow] ++ badRow0 :: [])) :: []))
          []).data
        = [] ++ (load_prices (some []) []).data ++ (processRows "price.csv" [sampleRow]).1
            ++ (load_prices (some []) []).data ∧
      ("price.csv", "ValueError") ∈
        (load_prices (some ([] ++ ("price.csv", some ([sampleRow] ++ badRow0 :: [])) :: []))
            []).log) :=
  ⟨by decide, by decide, rfl,
    load_prices_error_mid_file [] [] "price.csv" [sampleRow] [] badRow0 [] "ValueError"
      (by decide) (by decide) rfl⟩

/-- C3: every record appended by `load_prices` comes from a listed file whose
name contains "price" case-insensitively, and dropping the non-matching files
from the listing changes nothing about the call's outcome. -/
theorem load_prices_marker_only (files : List DirEntry) (data : List Item) :
    (∀ it, it ∈ List.drop data.length (load_prices (some files) data).data →
        hasMarker it.srcFile = true ∧ ∃ contents, (it.srcFile, contents) ∈ files) ∧
    load_prices (some (files.filter fun f => hasMarker f.1)) data =
      load_prices (some files) data := by
  constructor
  · intro it h
    simp only [load_prices] at h
    rw [List.drop_left, List.mem_flatMap] at h
    obtain ⟨f, hf, hit⟩ := h
    rw [List.mem_filter] at hf
    have hsrc := (mem_processFile_fields f.1 f.2 it hit).1
    rw [hsrc]
    exact ⟨hf.2, f.2, hf.1⟩
  · have hff : (files.filter fun f => hasMarker f.1).filter (fun f => hasMarker f.1) =
        files.filter fun f => hasMarker f.1 := by
      rw [List.filter_filter]; simp
    simp only [load_prices]
    rw [hff]

/-- C3 witness: with one matching and one non-matching file listed, the
appended record's source file is a listed file with the marker. -/
theorem load_prices_marker_only_witness :
    sampleItem ∈ List.drop (List.length ([] : List Item))
        (load_prices (some [("price.csv", some [sampleRow]), ("other.csv", some [])]) []).data ∧
    (hasMarker sampleItem.srcFile = true ∧
      ∃ contents, (sampleItem.srcFile, contents) ∈
        [(("price.csv" : String), some [sampleRow]), ("other.csv", some ([] : List Row))]) :=
  ⟨by decide,
    (load_prices_marker_only [("price.csv", some [sampleRow]), ("other.csv", some [])] []).1
      sampleItem (by decide)⟩

/-- C4: `find_text` returns exactly the records of `self.data` whose name
contains the query as a case-insensitive substring — a permutation of that
filtered sublist, hence the same members and no others. -/
theorem find_text_exact (data : List Item) (text : String) :
    (find_text data text).Perm
      (data.filter fun it => containsStr (lowerStr text) (lowerStr it.name)) ∧
    ∀ it, it ∈ find_text data text ↔
      it ∈ data ∧ containsStr (lowerStr text) (lowerStr it.name) = true := by
  constructor
  · exact sortItems_perm _
  · intro it
    unfold find_text
    rw [(sortItems_perm _).mem_iff, List.mem_filter]

/-- C5: the list returned by `find_text` is sorted in ascending lexicographic
order of the key ("наименование", "цена за кг"). -/
theorem find_text_sorted (data : List Item) (text : String) :
    List.Sorted keyLe (find_text data text) :=
  sortItems_sorted _

/-- C6 counterexample: a row in which product name, price and weight columns
are all found with non-empty values, yet no record is produced — the
unparseable price cell `"x"` raises instead, falsifying the claim's
"if" direction. -/
theorem record_iff_counterexample :
    getValue badRow0 PRODUCT_KEYS = some "Хлеб" ∧
    getValue badRow0 PRICE_KEYS = some "x" ∧
    getValue badRow0 WEIGHT_KEYS = some "1" ∧
    ("Хлеб" ≠ "" ∧ "x" ≠ "" ∧ "1" ≠ "") ∧
    processRow "price.csv" badRow0 = Except.error "ValueError" :=
  ⟨by decide, by decide, by decide, by decide, rfl⟩

/-- C6 amended: a CSV row produces a record iff the three columns are found
among the synonym lists with non-empty values, the price and weight values
parse as numbers, and the weight is nonzero; the value used is that of the
first synonym present in list order, and the record is exactly the
five-field dict built from them. -/
theorem processRow_record_iff (fname : String) (row : Row) (it : Item) :
    processRow fname row = Except.ok (some it) ↔
      ∃ pn pr wt p w,
        getValue row PRODUCT_KEYS = some pn ∧ getValue row PRICE_KEYS = some pr ∧
        getValue row WEIGHT_KEYS = some wt ∧ pn ≠ "" ∧ pr ≠ "" ∧ wt ≠ "" ∧
        parseFloat pr = some p ∧ parseFloat wt = some w ∧ w ≠ 0 ∧
        it = { name := pn, price := p, weight := w, srcFile := fname,
               pricePerKg := p / w } :=
  processRow_ok_iff fname row it

/-- C6 witness: the well-formed example row produces exactly the expected
five-field record. -/
theorem processRow_record_iff_witness :
    processRow "price.csv" sampleRow = Except.ok (some sampleItem) :=
  (processRow_record_iff "price.csv" sampleRow sampleItem).mpr
    ⟨"Сыр", "100", "2", 100, 2, by decide, by decide, by decide, by decide, by decide,
      by decide, by decide, by decide, by decide, by decide⟩

/-- C7: `export_to_html` writes to the given file, and returns, the document
made of the header, one `<tr>` block per record, and the footer, where the
blocks are the records sorted ascending by ("наименование", "цена за кг")
and numbered consecutively from 1. -/
theorem export_to_html_spec (data : List Item) (fname : String) :
    export_to_html data fname =
      ([(fname, htmlHeader ++ concatRows (exportRows data) ++ htmlFooter)],
        htmlHeader ++ concatRows (exportRows data) ++ htmlFooter) ∧
    ((exportRows data).map Prod.snd).Perm data ∧
    List.Sorted keyLe ((exportRows data).map Prod.snd) ∧
    (exportRows data).map Prod.fst = List.range' 1 data.length := by
  refine ⟨?_, ?_, ?_, ?_⟩
  · simp only [export_to_html]
    rw [foldl_rowHtml]
  · simp only [exportRows]
    rw [List.enumFrom_map_snd]
    exact sortItems_perm data
  · simp only [exportRows]
    rw [List.enumFrom_map_snd]
    exact sortItems_sorted data
  · simp only [exportRows]
    rw [List.enumFrom_map_fst, (sortItems_perm data).length_eq]

/-- C8: when the path does not exist the call raises `FileNotFoundError`,
reads no file (nothing logged) and leaves `self.data` unchanged. -/
theorem load_prices_missing_path (data : List Item) :
    load_prices none data =
      { data := data, log := [], raised := some "FileNotFoundError" } :=
  rfl

/-- C9: `load_prices` only appends — the previous contents of `self.data`
remain a prefix of the new contents, so successive calls accumulate. -/
theorem load_prices_append_only (listing : Option (List DirEntry)) (data : List Item) :
    ∃ tail, (load_prices listing data).data = data ++ tail := by
  cases listing with
  | none => exact ⟨[], (List.append_nil data).symm⟩
  | some files => exact ⟨_, rfl⟩

/-- C10: `export_search_results_to_html` always returns the empty string,
writes nothing when the results list is empty, and otherwise overwrites the
given file with the table of the results sorted ascending by
("наименование", "цена за кг"). -/
theorem export_search_results_spec (results : List Item) (fname : String) :
    (export_search_results_to_html results fname).2 = "" ∧
    (export_search_results_to_html results fname).1 =
      (if results.isEmpty then []
       else [(fname, searchHtmlHeader ++ concatRows (exportRows results) ++ htmlFooter)]) ∧
    ((exportRows results).map Prod.snd).Perm results ∧
    List.Sorted keyLe ((exportRows results).map Prod.snd) := by
  refine ⟨?_, ?_, ?_, ?_⟩
  · unfold export_search_results_to_html
    split <;> rfl
  · simp only [export_search_results_to_html]
    by_cases he : results.isEmpty <;> simp [he, foldl_rowHtml]
  · simp only [exportRows]
    rw [List.enumFrom_map_snd]
    exact sortItems_perm results
  · simp only [exportRows]
    rw [List.enumFrom_map_snd]
    exact sortItems_sorted results

end ClaimTheorems

end PriceMachine
